import Mathlib

/-!
Verification development for the `airaces` racing server.

The Go server keeps per-car kinematic state, integrates simple car physics
at a fixed tick rate, detects lap completion by track-progress wraparound,
decays penalties, computes a leaderboard with interval metrics, and gates
player input behind a per-car auth token.

Floats (`float32` in Go) are modelled as exact rationals `ℚ`; trigonometric
functions appearing in the position update are kept abstract behind a
`TrigModel`, since no verified claim depends on their values.
-/

namespace Airaces

/-- Physics constants from the server const block (part_003 / part_004):
maxSpeed = 300, acceleration = 200, brakeForce = 400, friction = 50,
turnSpeed = 180. -/
def maxSpeed : ℚ := 300

/-- Longitudinal acceleration rate (units per second squared). -/
def acceleration : ℚ := 200

/-- Brake deceleration rate. -/
def brakeForce : ℚ := 400

/-- Passive friction deceleration applied when neither throttle nor brake is
pressed. -/
def friction : ℚ := 50

/-- Base turn rate in degrees per second at full speed. -/
def turnSpeed : ℚ := 180

/-- Largest finite float32 value, `math.MaxFloat32` = (2 − 2⁻²³)·2¹²⁷,
used by `calculateTrackProgress` as the initial minimum distance. -/
def maxFloat32 : ℚ := 2 ^ 128 - 2 ^ 104

/-- A 3-D point (`pb.Point3D`); only x and y take part in the physics. -/
structure Point3D where
  x : ℚ
  y : ℚ
  z : ℚ
deriving DecidableEq, Repr

instance : Inhabited Point3D := ⟨⟨0, 0, 0⟩⟩

/-- Car lifecycle status (`pb.CarStatus`). -/
inductive CarStatus where
  | notReady
  | waiting
  | racing
  | servingPenalty
  | finished
deriving DecidableEq, Repr

/-- Staged control input for one car (`PlayerInput` struct of the
extended server, part_003/part_004). -/
structure PlayerInput where
  steering : ℚ
  throttle : ℚ
  brake : ℚ
  timestamp : ℤ
deriving DecidableEq, Repr

/-- Track geometry (`pb.TrackInfo`): left/right boundary polylines. -/
structure TrackInfo where
  leftBoundary : List Point3D
  rightBoundary : List Point3D

/-- Extended car state (`CarStateExtended` embedding `pb.CarState`):
kinematics plus lap-detection bookkeeping.  Wall-clock times
(`currentLapStart`, lap times) are modelled as rational seconds. -/
structure CarStateExtended where
  carId : String
  status : CarStatus
  position : Point3D
  heading : ℚ
  speed : ℚ
  lap : ℤ
  lastProgress : ℚ
  crossedFinish : Bool
  bestLapTime : ℚ
  currentLapStart : ℚ
  lapTimes : List ℚ

/-- Abstract interpretation of `math.Cos`/`math.Sin` on a heading given in
degrees (the Go code converts to radians first; the composed map
`h ↦ cos (h·π/180)` is what `cosDeg` stands for).  No claim depends on the
actual trigonometric values. -/
structure TrigModel where
  cosDeg : ℚ → ℚ
  sinDeg : ℚ → ℚ

/-- The `for state.Heading < 0 { state.Heading += 360 }` loop of
`updateCarPhysics`: repeatedly add 360 until nonnegative. -/
def wrapUp (h : ℚ) : ℚ :=
  if hlt : h < 0 then wrapUp (h + 360) else h
termination_by (⌈-h / 360⌉).toNat
decreasing_by
  have h1 : -(h + 360) / 360 = -h / 360 - 1 := by ring
  have h2 : 0 < ⌈-h / 360⌉ := by
    refine Int.ceil_pos.mpr ?_
    have hx : (0 : ℚ) < -h := by linarith
    positivity
  rw [h1, Int.ceil_sub_one]
  omega

/-- The `for state.Heading >= 360 { state.Heading -= 360 }` loop of
`updateCarPhysics`: repeatedly subtract 360 until below 360. -/
def wrapDown (h : ℚ) : ℚ :=
  if hge : 360 ≤ h then wrapDown (h - 360) else h
termination_by (⌊h / 360⌋).toNat
decreasing_by
  have h1 : (h - 360) / 360 = h / 360 - 1 := by ring
  have h2 : 0 < ⌊h / 360⌋ := by
    refine Int.floor_pos.mpr ?_
    rw [le_div_iff₀ (by norm_num : (0:ℚ) < 360)]
    linarith
  rw [h1, Int.floor_sub_one]
  omega

/-- Squared Euclidean distance from `pos` to the midpoint of a left/right
boundary pair, as computed inside the `calculateTrackProgress` loop. -/
def centerDist2 (pos lp rp : Point3D) : ℚ :=
  let centerX := (lp.x + rp.x) / 2
  let centerY := (lp.y + rp.y) / 2
  let dx := pos.x - centerX
  let dy := pos.y - centerY
  dx * dx + dy * dy

/-- The scan loop of `calculateTrackProgress`: walk the boundary pairs with a
running index, keeping the smallest squared distance seen so far and the
index where it occurred; `acc` is the running pair (minDist, closestIdx). -/
def scanClosest (pos : Point3D) : List (Point3D × Point3D) → ℕ → ℚ × ℕ → ℚ × ℕ
  | [], _, acc => acc
  | p :: rest, i, acc =>
      let dist := centerDist2 pos p.1 p.2
      scanClosest pos rest (i + 1) (if dist < acc.1 then (dist, i) else acc)

/-- Left/right boundary pairs walked by the `calculateTrackProgress` loop
(the loop ranges over `LeftBoundary` and indexes `RightBoundary` at the same
position). -/
def trackPairs (track : TrackInfo) : List (Point3D × Point3D) :=
  track.leftBoundary.zip track.rightBoundary

/-- Track progress (`calculateTrackProgress` in track.go): index of the
closest centerline point divided by the point count; `minDist` starts at
`math.MaxFloat32` and `closestIdx` at 0. -/
def calculateTrackProgress (track : TrackInfo) (pos : Point3D) : ℚ :=
  let res := scanClosest pos (trackPairs track) 0 (maxFloat32, 0)
  (res.2 : ℚ) / (track.leftBoundary.length : ℚ)

/-- Longitudinal speed update of `updateCarPhysics` (physics.go lines
97–111): throttle accelerates, else brake decelerates, else friction
decays; then the result is clamped into `[0, maxSpeed]`. -/
def speedStep (speed : ℚ) (input : PlayerInput) (dt : ℚ) : ℚ :=
  let speed1 :=
    if input.throttle > 0 then speed + acceleration * input.throttle * dt
    else if input.brake > 0 then speed - brakeForce * input.brake * dt
    else speed - friction * dt
  let speed2 := if speed1 < 0 then 0 else speed1
  if speed2 > maxSpeed then maxSpeed else speed2

/-- Steering update of `updateCarPhysics` (physics.go lines 113–123): only
active above speed 10 with nonzero steering; turn rate proportional to the
speed fraction of `maxSpeed`; the new heading is wrapped into `[0,360)` by
the two add/subtract loops. -/
def headingStep (heading speed steering dt : ℚ) : ℚ :=
  if speed > 10 ∧ steering ≠ 0 then
    let turnRate := turnSpeed * (speed / maxSpeed)
    wrapDown (wrapUp (heading + turnRate * steering * dt))
  else heading

/-- Per-tick physics integration of the extended server
(`updateCarPhysics` in physics.go): longitudinal speed update with clamp,
speed-gated steering with heading wrap, Euler position step, then
seam-crossing lap detection with lap-time bookkeeping. -/
def updateCarPhysics (trig : TrigModel) (track : TrackInfo)
    (state : CarStateExtended) (input : PlayerInput) (dt : ℚ) (now : ℚ) :
    CarStateExtended :=
  let speed3 := speedStep state.speed input dt
  let heading1 := headingStep state.heading speed3 input.steering dt
  let dx := trig.cosDeg heading1 * speed3 * dt
  let dy := trig.sinDeg heading1 * speed3 * dt
  let pos1 : Point3D :=
    { x := state.position.x + dx, y := state.position.y + dy, z := state.position.z }
  let currentProgress := calculateTrackProgress track pos1
  if state.lastProgress > 9/10 ∧ currentProgress < 1/10 ∧ speed3 > 0 then
    let lapTime := now - state.currentLapStart
    let best :=
      if state.bestLapTime = 0 ∨ lapTime < state.bestLapTime then lapTime
      else state.bestLapTime
    { state with
        speed := speed3
        heading := heading1
        position := pos1
        lap := state.lap + 1
        lapTimes := state.lapTimes ++ [lapTime]
        bestLapTime := best
        currentLapStart := now
        lastProgress := currentProgress }
  else
    { state with
        speed := speed3
        heading := heading1
        position := pos1
        lastProgress := currentProgress }

/-- Lap gain along a progress trace: the seam-crossing rule of
`updateCarPhysics` folded over consecutive progress samples, starting from
previous-tick progress `last`, with the car's speed fixed at `speed`. -/
def lapsGainedFrom (speed last : ℚ) : List ℚ → ℤ
  | [] => 0
  | c :: rest =>
      (if last > 9/10 ∧ c < 1/10 ∧ speed > 0 then 1 else 0) + lapsGainedFrom speed c rest

namespace MainVariant

/-- Track width constant of the wrap-at-edge server variant (main.go). -/
def trackWidth : ℚ := 1100

/-- Track height constant of the wrap-at-edge server variant (main.go). -/
def trackHeight : ℚ := 500

/-- Boost multiplier constant of the wrap-at-edge server variant. -/
def boostMultiplier : ℚ := 3/2

/-- Staged control input of the main.go variant (includes boost/sequence). -/
structure PlayerInput where
  steering : ℚ
  throttle : ℚ
  brake : ℚ
  boost : Bool
  timestamp : ℤ
  sequence : ℤ
deriving DecidableEq, Repr

/-- Car state of the main.go variant (`pb.CarState` there is flat x/y). -/
structure CarState where
  carId : String
  x : ℚ
  y : ℚ
  heading : ℚ
  speed : ℚ
  lap : ℤ
  currentSteering : ℚ
  currentThrottle : ℚ

/-- Longitudinal speed update of the main.go variant: like the extended
one, but the acceleration rate and the speed cap are both scaled by
`boostMultiplier` while boost is held. -/
def speedStep (speed : ℚ) (input : PlayerInput) (dt : ℚ) : ℚ :=
  let speed1 :=
    if input.throttle > 0 then
      let acc := if input.boost then acceleration * boostMultiplier else acceleration
      speed + acc * input.throttle * dt
    else if input.brake > 0 then speed - brakeForce * input.brake * dt
    else speed - friction * dt
  let speed2 := if speed1 < 0 then 0 else speed1
  let maxS := if input.boost then maxSpeed * boostMultiplier else maxSpeed
  if speed2 > maxS then maxS else speed2

/-- Per-tick physics of the main.go variant (`updateCarPhysics` at
main.go:258): boost-scaled acceleration and speed cap, steering with
heading wrap, Euler step, X wrap with lap increment, Y clamp. -/
def updateCarPhysics (trig : TrigModel) (state : CarState)
    (input : PlayerInput) (dt : ℚ) : CarState :=
  let speed3 := speedStep state.speed input dt
  let heading1 := headingStep state.heading speed3 input.steering dt
  let dx := trig.cosDeg heading1 * speed3 * dt
  let dy := trig.sinDeg heading1 * speed3 * dt
  let x1 := state.x + dx
  let y1 := state.y + dy
  let x2 := if x1 > trackWidth then 0 else x1
  let lap1 := if x1 > trackWidth then state.lap + 1 else state.lap
  let x3 := if x2 < 0 then trackWidth else x2
  let y2 := if y1 < 0 then 0 else y1
  let y3 := if y2 > trackHeight then trackHeight else y2
  { state with
      x := x3
      y := y3
      heading := heading1
      speed := speed3
      lap := lap1
      currentSteering := input.steering
      currentThrottle := input.throttle }

end MainVariant

/-- Acknowledgment returned by `SendPlayerInput` (`pb.InputAck`). -/
structure InputAck where
  accepted : Bool
  reason : String
  gameLoop : ℤ
deriving DecidableEq, Repr

/-- The wire-level player input message (`pb.PlayerInput`). -/
structure PlayerInputMsg where
  carId : String
  authToken : String
  steering : ℚ
  throttle : ℚ
  brake : ℚ
  timestamp : ℤ
deriving DecidableEq, Repr

/-- The slice of `CarServer` state that `SendPlayerInput` reads and writes:
the token map, the staged-input map (both modelled as association lists with
unique keys, as Go maps) and the game tick counter. -/
structure InputServerState where
  authTokens : List (String × String)
  playerInput : List (String × PlayerInput)
  gameTick : ℤ
deriving DecidableEq, Repr

/-- Go map assignment `m[k] = v`: replace the binding if the key is present,
otherwise add it. -/
def setEntry {α : Type} : List (String × α) → String → α → List (String × α)
  | [], k, v => [(k, v)]
  | e :: rest, k, v => if e.1 = k then (k, v) :: rest else e :: setEntry rest k v

/-- Token check (`validateToken` in server.go):
`expected, ok := s.authTokens[carId]; return ok && token == expected`. -/
def validateToken (s : InputServerState) (carId token : String) : Bool :=
  match s.authTokens.lookup carId with
  | some expected => token == expected
  | none => false

/-- Input RPC (`SendPlayerInput` in part_003): reject with reason
"invalid token" when validation fails, without touching the state;
otherwise overwrite the car's staged input and accept.  Both acks carry the
current game tick, and the Go handler always returns a nil error. -/
def SendPlayerInput (s : InputServerState) (input : PlayerInputMsg) :
    InputAck × InputServerState :=
  if ¬ validateToken s input.carId input.authToken then
    ({ accepted := false, reason := "invalid token", gameLoop := s.gameTick }, s)
  else
    let staged : PlayerInput :=
      { steering := input.steering
        throttle := input.throttle
        brake := input.brake
        timestamp := input.timestamp }
    ({ accepted := true, reason := "", gameLoop := s.gameTick },
     { s with playerInput := setEntry s.playerInput input.carId staged })

/-- Penalty record (`pb.CarPenalty`); remaining duration in milliseconds. -/
structure CarPenalty where
  carId : String
  reason : String
  remainingPenalty : ℤ
deriving DecidableEq, Repr

/-- Go conversion `int32(q)` on a float value: truncation toward zero
(32-bit overflow is not modelled). -/
def truncToward0 (q : ℚ) : ℤ := if 0 ≤ q then ⌊q⌋ else ⌈q⌉

/-- Penalty decay step of the tick loop (physics.go lines 42–50): an active
penalty is decremented by `int32(dt*1000)` milliseconds; if the remainder is
zero or below the penalty is removed and the car returns to Racing,
otherwise the car is marked ServingPenalty.  A car with no penalty keeps its
status. -/
def penaltyTick (dt : ℚ) (pen : Option CarPenalty) (status : CarStatus) :
    Option CarPenalty × CarStatus :=
  match pen with
  | none => (none, status)
  | some p =>
      let r := p.remainingPenalty - truncToward0 (dt * 1000)
      if r ≤ 0 then (none, CarStatus.racing)
      else (some { p with remainingPenalty := r }, CarStatus.servingPenalty)

/-- Sort record of `calculateIntervals` (the local `carPosition` struct). -/
structure CarPos where
  carId : String
  lap : ℤ
  progress : ℚ
deriving DecidableEq, Repr

instance : Inhabited CarPos := ⟨⟨"", 0, 0⟩⟩

/-- The `less` comparator passed to `sort.Slice` in `calculateIntervals`:
primary key lap descending, secondary key progress descending. -/
def lessPos (a b : CarPos) : Bool :=
  if a.lap ≠ b.lap then decide (a.lap > b.lap) else decide (a.progress > b.progress)

/-- Sorting step of `calculateIntervals`; Go's unstable `sort.Slice` is
modelled by insertion sort under the non-strict complement of `lessPos`
(`sort.Slice` promises a sorted permutation and nothing about ties, and no
claim depends on tie order). -/
def sortCars (l : List CarPos) : List CarPos :=
  l.insertionSort (fun a b => lessPos b a = false)

/-- One leaderboard entry (`pb.CarInterval`). -/
structure CarInterval where
  carId : String
  position : ℤ
  laps : ℤ
  interval : ℚ
deriving DecidableEq, Repr

instance : Inhabited CarInterval := ⟨⟨"", 0, 0, 0⟩⟩

/-- The interval-to-leader loop of `calculateIntervals`:
`(leaderLap − lap) + (leaderProgress − progress)` per sorted entry, with
1-based positions. -/
def intervalsToLeader (leader : CarPos) : ℕ → List CarPos → List CarInterval
  | _, [] => []
  | i, p :: rest =>
      { carId := p.carId
        position := (i : ℤ) + 1
        laps := p.lap
        interval := ((leader.lap - p.lap : ℤ) : ℚ) + (leader.progress - p.progress) }
        :: intervalsToLeader leader (i + 1) rest

/-- The interval-to-car-ahead loop of `calculateIntervals`: 0 for the first
entry, otherwise the same lap+progress difference taken against the
previous sorted entry. -/
def intervalsForPosition : ℕ → Option CarPos → List CarPos → List CarInterval
  | _, _, [] => []
  | i, prev, p :: rest =>
      { carId := p.carId
        position := (i : ℤ) + 1
        laps := p.lap
        interval :=
          match prev with
          | none => 0
          | some q => ((q.lap - p.lap : ℤ) : ℚ) + (q.progress - p.progress) }
        :: intervalsForPosition (i + 1) (some p) rest

/-- Leaderboard with interval metrics (`calculateIntervals` in track.go):
sort by lap then progress (both descending), then produce the
interval-to-leader and interval-to-car-ahead lists. -/
def calculateIntervals (l : List CarPos) : List CarInterval × List CarInterval :=
  match sortCars l with
  | [] => ([], [])
  | leader :: rest =>
      (intervalsToLeader leader 0 (leader :: rest),
       intervalsForPosition 0 none (leader :: rest))


/-- A two-point track and a position so distant that every squared distance
exceeds `math.MaxFloat32`. -/
def cexTrack : TrackInfo :=
  { leftBoundary := [⟨0, 0, 0⟩, ⟨2 ^ 70, 0, 0⟩]
    rightBoundary := [⟨0, 0, 0⟩, ⟨2 ^ 70, 0, 0⟩] }

/-- A position closest to centerline index 1 but beyond the float sentinel. -/
def cexPos : Point3D := ⟨2 ^ 70 + 2 ^ 65, 0, 0⟩

/-- A trivial trig interpretation used only to evaluate witnesses. -/
def demoTrig : TrigModel := ⟨fun _ => 1, fun _ => 0⟩

/-- A small two-point track used only to evaluate witnesses. -/
def demoTrack : TrackInfo :=
  { leftBoundary := [⟨0, 0, 0⟩, ⟨100, 0, 0⟩]
    rightBoundary := [⟨0, 10, 0⟩, ⟨100, 10, 0⟩] }

/-- A car state at rest used only to evaluate witnesses. -/
def demoState : CarStateExtended :=
  { carId := "A", status := CarStatus.racing, position := ⟨0, 0, 0⟩
    heading := 0, speed := 0, lap := 0, lastProgress := 0
    crossedFinish := false, bestLapTime := 0, currentLapStart := 0, lapTimes := [] }

/-- A car state moving at speed 100 used only to evaluate witnesses. -/
def demoFast : CarStateExtended := { demoState with speed := 100 }

/-- The neutral input used only to evaluate witnesses. -/
def demoInput : PlayerInput := ⟨0, 0, 0, 0⟩

/-- The demo server state of the input-gate witnesses. -/
def demoServer : InputServerState :=
  { authTokens := [("A", "demo-token-A")]
    playerInput := [("A", ⟨0, 0, 0, 0⟩)]
    gameTick := 7 }

/-- The demo grid of the interval witness: laps [2,2,1], progress
[0.5,0.9,0.99]. -/
def demoGrid : List CarPos :=
  [⟨"A", 2, 1/2⟩, ⟨"B", 2, 9/10⟩, ⟨"C", 1, 99/100⟩]


/-- Termination measure decrease for the add-360 loop. -/
theorem wrapUpMeasure_lt (h : ℚ) (hlt : h < 0) :
    (⌈-(h + 360) / 360⌉).toNat < (⌈-h / 360⌉).toNat := by
  have h1 : -(h + 360) / 360 = -h / 360 - 1 := by ring
  have h2 : 0 < ⌈-h / 360⌉ := by
    refine Int.ceil_pos.mpr ?_
    have hx : (0 : ℚ) < -h := by linarith
    positivity
  rw [h1, Int.ceil_sub_one]
  omega

/-- Termination measure decrease for the subtract-360 loop. -/
theorem wrapDownMeasure_lt (h : ℚ) (hge : 360 ≤ h) :
    (⌊(h - 360) / 360⌋).toNat < (⌊h / 360⌋).toNat := by
  have h1 : (h - 360) / 360 = h / 360 - 1 := by ring
  have h2 : 0 < ⌊h / 360⌋ := by
    refine Int.floor_pos.mpr ?_
    rw [le_div_iff₀ (by norm_num : (0:ℚ) < 360)]
    linarith
  rw [h1, Int.floor_sub_one]
  omega

theorem wrapUp_nonneg (h : ℚ) : 0 ≤ wrapUp h := by
  by_cases hlt : h < 0
  · rw [wrapUp, dif_pos hlt]
    exact wrapUp_nonneg (h + 360)
  · rw [wrapUp, dif_neg hlt]
    linarith
termination_by (⌈-h / 360⌉).toNat
decreasing_by
  exact wrapUpMeasure_lt h hlt

theorem wrapDown_lt (h : ℚ) : wrapDown h < 360 := by
  by_cases hge : 360 ≤ h
  · rw [wrapDown, dif_pos hge]
    exact wrapDown_lt (h - 360)
  · rw [wrapDown, dif_neg hge]
    linarith
termination_by (⌊h / 360⌋).toNat
decreasing_by
  exact wrapDownMeasure_lt h hge

theorem wrapDown_nonneg (h : ℚ) (hh : 0 ≤ h) : 0 ≤ wrapDown h := by
  by_cases hge : 360 ≤ h
  · rw [wrapDown, dif_pos hge]
    exact wrapDown_nonneg (h - 360) (by linarith)
  · rw [wrapDown, dif_neg hge]
    exact hh
termination_by (⌊h / 360⌋).toNat
decreasing_by
  exact wrapDownMeasure_lt h hge

theorem updateCarPhysics_speed (trig : TrigModel) (track : TrackInfo) (st : CarStateExtended)
    (inp : PlayerInput) (dt now : ℚ) :
    (updateCarPhysics trig track st inp dt now).speed = speedStep st.speed inp dt := by
  unfold updateCarPhysics
  dsimp only
  split <;> rfl

theorem updateCarPhysics_heading (trig : TrigModel) (track : TrackInfo) (st : CarStateExtended)
    (inp : PlayerInput) (dt now : ℚ) :
    (updateCarPhysics trig track st inp dt now).heading =
      headingStep st.heading (speedStep st.speed inp dt) inp.steering dt := by
  unfold updateCarPhysics
  dsimp only
  split <;> rfl

theorem updateCarPhysics_lap_iff (trig : TrigModel) (track : TrackInfo) (st : CarStateExtended)
    (inp : PlayerInput) (dt now : ℚ) :
    ((updateCarPhysics trig track st inp dt now).lap = st.lap + 1 ↔
      (st.lastProgress > 9/10 ∧
       (updateCarPhysics trig track st inp dt now).lastProgress < 1/10 ∧
       (updateCarPhysics trig track st inp dt now).speed > 0)) := by
  unfold updateCarPhysics
  dsimp only
  split
  case isTrue h => simpa using h
  case isFalse h =>
    simp only []
    constructor
    · intro hl
      exact absurd hl (by omega)
    · intro hr
      exact absurd hr (by simpa using h)


theorem speedStep_nonneg (speed : ℚ) (inp : PlayerInput) (dt : ℚ) :
    0 ≤ speedStep speed inp dt := by
  have hM : (0:ℚ) < maxSpeed := by norm_num [maxSpeed]
  unfold speedStep
  dsimp only
  split_ifs <;> linarith

theorem speedStep_le_max (speed : ℚ) (inp : PlayerInput) (dt : ℚ) :
    speedStep speed inp dt ≤ maxSpeed := by
  have hM : (0:ℚ) < maxSpeed := by norm_num [maxSpeed]
  unfold speedStep
  dsimp only
  split_ifs <;> linarith

theorem mvSpeedStep_eq (trig : TrigModel) (stM : MainVariant.CarState)
    (inpM : MainVariant.PlayerInput) (dt : ℚ) :
    (MainVariant.updateCarPhysics trig stM inpM dt).speed =
      MainVariant.speedStep stM.speed inpM dt := rfl

theorem mvSpeedStep_nonneg (speed : ℚ) (inp : MainVariant.PlayerInput) (dt : ℚ) :
    0 ≤ MainVariant.speedStep speed inp dt := by
  have hM : (0:ℚ) < maxSpeed := by norm_num [maxSpeed]
  have hB : (0:ℚ) < maxSpeed * MainVariant.boostMultiplier := by
    norm_num [maxSpeed, MainVariant.boostMultiplier]
  unfold MainVariant.speedStep
  dsimp only
  split_ifs <;> linarith

theorem mvSpeedStep_le_max (speed : ℚ) (inp : MainVariant.PlayerInput) (dt : ℚ) :
    MainVariant.speedStep speed inp dt ≤
      maxSpeed * (if inp.boost then MainVariant.boostMultiplier else 1) := by
  have hM : (0:ℚ) < maxSpeed := by norm_num [maxSpeed]
  have hB : maxSpeed ≤ maxSpeed * MainVariant.boostMultiplier := by
    norm_num [maxSpeed, MainVariant.boostMultiplier]
  unfold MainVariant.speedStep
  dsimp only
  by_cases hb : inp.boost
  · simp only [hb, if_true]
    split_ifs <;> linarith
  · simp only [hb, if_false, mul_one]
    split_ifs <;> linarith


/-- C3: one physics step always leaves speed in [0, maxSpeed] for the
extended server; iterating full-throttle steps never exceeds maxSpeed; and
in the main.go variant the bound is maxSpeed scaled by boostMultiplier
exactly when boost is held. -/
theorem speed_clamped_per_tick
    (trig : TrigModel) (track : TrackInfo) (st : CarStateExtended)
    (inp : PlayerInput) (dt now : ℚ) (hdt : 0 < dt) :
    (0 ≤ (updateCarPhysics trig track st inp dt now).speed ∧
      (updateCarPhysics trig track st inp dt now).speed ≤ maxSpeed) ∧
    (inp.throttle = 1 → ∀ n : ℕ, 1 ≤ n →
      ((fun s => updateCarPhysics trig track s inp dt now)^[n] st).speed ≤ maxSpeed) ∧
    (∀ (stM : MainVariant.CarState) (inpM : MainVariant.PlayerInput),
      0 ≤ (MainVariant.updateCarPhysics trig stM inpM dt).speed ∧
      (MainVariant.updateCarPhysics trig stM inpM dt).speed ≤
        maxSpeed * (if inpM.boost then MainVariant.boostMultiplier else 1)) := by
  refine ⟨⟨?_, ?_⟩, ?_, ?_⟩
  · rw [updateCarPhysics_speed]
    exact speedStep_nonneg _ _ _
  · rw [updateCarPhysics_speed]
    exact speedStep_le_max _ _ _
  · intro hthr n hn
    obtain ⟨m, rfl⟩ : ∃ m, n = m + 1 := ⟨n - 1, by omega⟩
    rw [Function.iterate_succ_apply']
    rw [updateCarPhysics_speed]
    exact speedStep_le_max _ _ _
  · intro stM inpM
    constructor
    · rw [mvSpeedStep_eq]
      exact mvSpeedStep_nonneg _ _ _
    · rw [mvSpeedStep_eq]
      exact mvSpeedStep_le_max _ _ _

theorem speedStep_noinput_le (speed : ℚ) (inp : PlayerInput) (dt : ℚ)
    (h0 : inp.throttle = 0) (h1 : inp.brake = 0) :
    speedStep speed inp dt ≤ max 0 (speed - friction * dt) := by
  have hM : (0:ℚ) < maxSpeed := by norm_num [maxSpeed]
  have hmr : speed - friction * dt ≤ max 0 (speed - friction * dt) := le_max_right _ _
  have hml : (0:ℚ) ≤ max 0 (speed - friction * dt) := le_max_left _ _
  unfold speedStep
  rw [h0, h1]
  simp only [gt_iff_lt, lt_self_iff_false, if_false]
  split_ifs <;> linarith


theorem iterate_noinput_speed_le
    (trig : TrigModel) (track : TrackInfo) (inp : PlayerInput) (dt now : ℚ)
    (h0 : inp.throttle = 0) (h1 : inp.brake = 0) (hdt : 0 < dt) :
    ∀ (n : ℕ) (st : CarStateExtended), 0 ≤ st.speed →
      ((fun s => updateCarPhysics trig track s inp dt now)^[n] st).speed ≤
        max 0 (st.speed - (n : ℚ) * (friction * dt)) := by
  have hf : (0:ℚ) < friction * dt := by
    have : (0:ℚ) < friction := by norm_num [friction]
    positivity
  intro n
  induction n with
  | zero =>
      intro st hst
      simpa using le_max_right (0:ℚ) st.speed
  | succ m ih =>
      intro st hst
      rw [Function.iterate_succ_apply]
      have hfs : (updateCarPhysics trig track st inp dt now).speed ≤
          max 0 (st.speed - friction * dt) := by
        rw [updateCarPhysics_speed]
        exact speedStep_noinput_le st.speed inp dt h0 h1
      have hnn : 0 ≤ (updateCarPhysics trig track st inp dt now).speed := by
        rw [updateCarPhysics_speed]
        exact speedStep_nonneg _ _ _
      have hih := ih (updateCarPhysics trig track st inp dt now) hnn
      have hmono : max 0 ((updateCarPhysics trig track st inp dt now).speed - (m : ℚ) * (friction * dt)) ≤
          max 0 (max 0 (st.speed - friction * dt) - (m : ℚ) * (friction * dt)) :=
        max_le_max le_rfl (sub_le_sub_right hfs _)
      have hstep : max 0 (max 0 (st.speed - friction * dt) - (m : ℚ) * (friction * dt)) ≤
          max 0 (st.speed - ((m : ℚ) + 1) * (friction * dt)) := by
        rcases le_or_lt (st.speed - friction * dt) 0 with hc | hc
        · rw [max_eq_left hc]
          have hz : (0:ℚ) - (m : ℚ) * (friction * dt) ≤ 0 := by
            have : (0:ℚ) ≤ (m : ℚ) * (friction * dt) := by positivity
            linarith
          rw [max_eq_left hz]
          exact le_max_left _ _
        · rw [max_eq_right hc.le]
          have heq : st.speed - friction * dt - (m : ℚ) * (friction * dt) =
              st.speed - ((m : ℚ) + 1) * (friction * dt) := by ring
          rw [heq]
      have hcast : ((m + 1 : ℕ) : ℚ) = (m : ℚ) + 1 := by push_cast; ring
      rw [hcast]
      exact le_trans hih (le_trans hmono hstep)

/-- C4: under ticks with zero throttle and zero brake, speed is
non-increasing, strictly decreases while positive, and after at most
⌈speed/(friction·dt)⌉ ticks it is exactly 0 and stays 0. -/
theorem friction_decay_to_zero
    (trig : TrigModel) (track : TrackInfo) (inp : PlayerInput) (dt now : ℚ)
    (h0 : inp.throttle = 0) (h1 : inp.brake = 0) (hdt : 0 < dt) :
    (∀ st : CarStateExtended, 0 ≤ st.speed →
      (updateCarPhysics trig track st inp dt now).speed ≤ st.speed) ∧
    (∀ st : CarStateExtended, 0 < st.speed →
      (updateCarPhysics trig track st inp dt now).speed < st.speed) ∧
    (∀ st : CarStateExtended, st.speed = 0 →
      (updateCarPhysics trig track st inp dt now).speed = 0) ∧
    (∀ st : CarStateExtended, 0 ≤ st.speed → ∀ n : ℕ,
      ⌈st.speed / (friction * dt)⌉.toNat ≤ n →
      ((fun s => updateCarPhysics trig track s inp dt now)^[n] st).speed = 0) := by
  have hf : (0:ℚ) < friction * dt := by
    have : (0:ℚ) < friction := by norm_num [friction]
    positivity
  refine ⟨?_, ?_, ?_, ?_⟩
  · intro st hst
    have := speedStep_noinput_le st.speed inp dt h0 h1
    rw [updateCarPhysics_speed]
    exact le_trans this (max_le hst (by linarith))
  · intro st hst
    have := speedStep_noinput_le st.speed inp dt h0 h1
    rw [updateCarPhysics_speed]
    exact lt_of_le_of_lt this (max_lt hst (by linarith))
  · intro st hst
    have hle := speedStep_noinput_le st.speed inp dt h0 h1
    rw [hst] at hle
    have hmax : max 0 ((0:ℚ) - friction * dt) = 0 := max_eq_left (by linarith)
    rw [hmax] at hle
    rw [updateCarPhysics_speed, hst]
    exact le_antisymm hle (speedStep_nonneg _ _ _)
  · intro st hst n hn
    have hbound := iterate_noinput_speed_le trig track inp dt now h0 h1 hdt n st hst
    have hceil : (⌈st.speed / (friction * dt)⌉ : ℤ) ≤ (n : ℤ) := by
      have := Int.self_le_toNat ⌈st.speed / (friction * dt)⌉
      omega
    have hq : st.speed / (friction * dt) ≤ (n : ℚ) := by
      refine le_trans (Int.le_ceil _) ?_
      exact_mod_cast hceil
    have hs : st.speed ≤ (n : ℚ) * (friction * dt) := by
      rwa [div_le_iff₀ hf] at hq
    have hmax : max 0 (st.speed - (n : ℚ) * (friction * dt)) = 0 :=
      max_eq_left (by linarith)
    rw [hmax] at hbound
    have hnn : 0 ≤ ((fun s => updateCarPhysics trig track s inp dt now)^[n] st).speed := by
      cases n with
      | zero => simpa using hst
      | succ m =>
          rw [Function.iterate_succ_apply']
          rw [updateCarPhysics_speed]
          exact speedStep_nonneg _ _ _
    exact le_antisymm hbound hnn


theorem headingStep_range (heading speed steering dt : ℚ)
    (hh0 : 0 ≤ heading) (hh1 : heading < 360) :
    0 ≤ headingStep heading speed steering dt ∧
      headingStep heading speed steering dt < 360 := by
  unfold headingStep
  split_ifs with h
  · exact ⟨wrapDown_nonneg _ (wrapUp_nonneg _), wrapDown_lt _⟩
  · exact ⟨hh0, hh1⟩

theorem headingStep_range_applied (heading speed steering dt : ℚ)
    (h : speed > 10 ∧ steering ≠ 0) :
    0 ≤ headingStep heading speed steering dt ∧
      headingStep heading speed steering dt < 360 := by
  unfold headingStep
  rw [if_pos h]
  exact ⟨wrapDown_nonneg _ (wrapUp_nonneg _), wrapDown_lt _⟩

/-- C5: heading in [0,360) is preserved by the physics step, and whenever
the steering branch fires the add/subtract wrap loops bring any heading,
even out-of-range ones, back into [0,360). -/
theorem heading_normalized
    (trig : TrigModel) (track : TrackInfo) (st : CarStateExtended)
    (inp : PlayerInput) (dt now : ℚ) :
    (0 ≤ st.heading → st.heading < 360 →
      0 ≤ (updateCarPhysics trig track st inp dt now).heading ∧
      (updateCarPhysics trig track st inp dt now).heading < 360) ∧
    (((updateCarPhysics trig track st inp dt now).speed > 10 ∧ inp.steering ≠ 0) →
      0 ≤ (updateCarPhysics trig track st inp dt now).heading ∧
      (updateCarPhysics trig track st inp dt now).heading < 360) := by
  constructor
  · intro hh0 hh1
    rw [updateCarPhysics_heading]
    exact headingStep_range _ _ _ _ hh0 hh1
  · intro h
    rw [updateCarPhysics_heading]
    apply headingStep_range_applied
    rwa [updateCarPhysics_speed] at h

theorem updateCarPhysics_lap_or (trig : TrigModel) (track : TrackInfo)
    (st : CarStateExtended) (inp : PlayerInput) (dt now : ℚ) :
    (updateCarPhysics trig track st inp dt now).lap = st.lap + 1 ∨
      (updateCarPhysics trig track st inp dt now).lap = st.lap := by
  unfold updateCarPhysics
  dsimp only
  split
  · left
    rfl
  · right
    rfl

theorem lapsGainedFrom_of_chain (speed : ℚ) :
    ∀ (ps : List ℚ) (a : ℚ), List.Chain' (· ≤ ·) (a :: ps) →
      lapsGainedFrom speed a ps = 0 := by
  intro ps
  induction ps with
  | nil => intro a h; rfl
  | cons c rest ih =>
      intro a h
      rw [List.chain'_cons] at h
      unfold lapsGainedFrom
      rw [if_neg, ih c h.2]
      · ring
      · rintro ⟨h9, h1, _⟩
        linarith [h.1]

theorem lapsGainedFrom_append (speed : ℚ) :
    ∀ (xs : List ℚ) (a : ℚ) (ys : List ℚ),
      lapsGainedFrom speed a (xs ++ ys) =
        lapsGainedFrom speed a xs + lapsGainedFrom speed (xs.getLastD a) ys := by
  intro xs
  induction xs with
  | nil =>
      intro a ys
      simp [lapsGainedFrom]
  | cons x rest ih =>
      intro a ys
      simp only [List.cons_append]
      simp only [lapsGainedFrom]
      rw [ih x ys, List.getLastD_cons]
      ring

theorem lapsGainedFrom_deadzone (speed : ℚ) :
    ∀ (qs : List ℚ) (b : ℚ), (∀ x ∈ qs, 1/10 < x ∧ x < 9/10) → b ≤ 9/10 →
      lapsGainedFrom speed b qs = 0 := by
  intro qs
  induction qs with
  | nil => intro b h hb; rfl
  | cons c rest ih =>
      intro b h hb
      unfold lapsGainedFrom
      rw [if_neg, ih c (fun x hx => h x (List.mem_cons_of_mem _ hx))
        (le_of_lt (h c (List.mem_cons_self _ _)).2)]
      · ring
      · rintro ⟨h9, _, _⟩
        linarith

/-- C2: the per-tick lap count increments exactly when previous progress
exceeds 0.9, new progress is below 0.1 and speed is positive (and only
ever by one); folding that rule over a monotone 0→0.99 trace that wraps to
0.05 yields exactly one lap, and over any trace inside (0.1,0.9) yields
none. -/
theorem lap_increment_rule
    (trig : TrigModel) (track : TrackInfo) (st : CarStateExtended)
    (inp : PlayerInput) (dt now : ℚ) :
    ((updateCarPhysics trig track st inp dt now).lap = st.lap + 1 ∨
      (updateCarPhysics trig track st inp dt now).lap = st.lap) ∧
    ((updateCarPhysics trig track st inp dt now).lap = st.lap + 1 ↔
      (st.lastProgress > 9/10 ∧
       (updateCarPhysics trig track st inp dt now).lastProgress < 1/10 ∧
       (updateCarPhysics trig track st inp dt now).speed > 0)) ∧
    ((updateCarPhysics trig track st inp dt now).lap =
      st.lap + lapsGainedFrom (updateCarPhysics trig track st inp dt now).speed
        st.lastProgress [(updateCarPhysics trig track st inp dt now).lastProgress]) ∧
    (∀ (ps : List ℚ) (speed : ℚ), 0 < speed →
      List.Chain' (· ≤ ·) (0 :: ps) → ps.getLastD 0 = 99/100 →
      lapsGainedFrom speed 0 (ps ++ [1/20]) = 1) ∧
    (∀ (qs : List ℚ) (speed b : ℚ), (∀ x ∈ qs, 1/10 < x ∧ x < 9/10) →
      b ≤ 9/10 → lapsGainedFrom speed b qs = 0) := by
  refine ⟨updateCarPhysics_lap_or trig track st inp dt now,
          updateCarPhysics_lap_iff trig track st inp dt now, ?_, ?_, ?_⟩
  · rcases updateCarPhysics_lap_or trig track st inp dt now with hl | hl
    · have hc := (updateCarPhysics_lap_iff trig track st inp dt now).mp hl
      rw [hl]
      unfold lapsGainedFrom
      rw [if_pos hc]
      unfold lapsGainedFrom
      ring
    · have hc : ¬ (st.lastProgress > 9/10 ∧
          (updateCarPhysics trig track st inp dt now).lastProgress < 1/10 ∧
          (updateCarPhysics trig track st inp dt now).speed > 0) := by
        intro hcc
        have := (updateCarPhysics_lap_iff trig track st inp dt now).mpr hcc
        omega
      rw [hl]
      unfold lapsGainedFrom
      rw [if_neg hc]
      unfold lapsGainedFrom
      ring
  · intro ps speed hsp hch hlast
    rw [lapsGainedFrom_append speed ps 0 [1/20],
      lapsGainedFrom_of_chain speed ps 0 hch, hlast]
    unfold lapsGainedFrom
    rw [if_pos (by norm_num [hsp] : (99:ℚ)/100 > 9/10 ∧ (1:ℚ)/20 < 1/10 ∧ speed > 0)]
    unfold lapsGainedFrom
    ring
  · intro qs speed b hq hb
    exact lapsGainedFrom_deadzone speed qs b hq hb


theorem lookup_setEntry_self {α : Type} (l : List (String × α)) (k : String) (v : α) :
    (setEntry l k v).lookup k = some v := by
  induction l with
  | nil => simp [setEntry, List.lookup]
  | cons e rest ih =>
      by_cases he : e.1 = k
      · simp [setEntry, he, List.lookup]
      · have hke : (k == e.1) = false := beq_eq_false_iff_ne.mpr (fun hk => he hk.symm)
        simp [setEntry, he, List.lookup, hke, ih]

/-- C1: for an existing car id, SendPlayerInput with a mismatched token
returns Accepted=false with reason "invalid token" and leaves the state,
in particular the staged input, untouched; with the matching token it
returns Accepted=true carrying the current tick and overwrites that car's
staged input with the submitted values. -/
theorem sendPlayerInput_token_gate (s : InputServerState) (msg : PlayerInputMsg)
    (stored : String) (hstored : s.authTokens.lookup msg.carId = some stored) :
    (msg.authToken ≠ stored →
      (SendPlayerInput s msg).1.accepted = false ∧
      (SendPlayerInput s msg).1.reason = "invalid token" ∧
      (SendPlayerInput s msg).1.gameLoop = s.gameTick ∧
      (SendPlayerInput s msg).2 = s) ∧
    (msg.authToken = stored →
      (SendPlayerInput s msg).1.accepted = true ∧
      (SendPlayerInput s msg).1.gameLoop = s.gameTick ∧
      (SendPlayerInput s msg).2.playerInput.lookup msg.carId =
        some { steering := msg.steering, throttle := msg.throttle,
               brake := msg.brake, timestamp := msg.timestamp } ∧
      (SendPlayerInput s msg).2.authTokens = s.authTokens ∧
      (SendPlayerInput s msg).2.gameTick = s.gameTick) := by
  have hval : validateToken s msg.carId msg.authToken = (msg.authToken == stored) := by
    unfold validateToken
    rw [hstored]
  constructor
  · intro hne
    have hfalse : validateToken s msg.carId msg.authToken = false := by
      rw [hval]
      exact beq_eq_false_iff_ne.mpr hne
    unfold SendPlayerInput
    rw [hfalse]
    simp
  · intro heq
    have htrue : validateToken s msg.carId msg.authToken = true := by
      rw [hval, heq]
      exact beq_self_eq_true _
    unfold SendPlayerInput
    rw [htrue]
    simp [lookup_setEntry_self]

/-- C10: for a car id with no stored token, SendPlayerInput returns the
exact same structured rejection as a token mismatch (Accepted=false,
reason "invalid token", current tick) and creates no staged-input entry.
The response therefore cannot distinguish an unknown id from a wrong
token. -/
theorem sendPlayerInput_unknown_car (s : InputServerState) (msg : PlayerInputMsg)
    (hnone : s.authTokens.lookup msg.carId = none) :
    (SendPlayerInput s msg).1 =
      { accepted := false, reason := "invalid token", gameLoop := s.gameTick } ∧
    (SendPlayerInput s msg).2 = s ∧
    (SendPlayerInput s msg).2.playerInput.lookup msg.carId =
      s.playerInput.lookup msg.carId := by
  have hval : validateToken s msg.carId msg.authToken = false := by
    unfold validateToken
    rw [hnone]
  unfold SendPlayerInput
  rw [hval]
  simp

/-- C8 (amended): each active penalty is decremented by the truncation of
dt×1000 to whole milliseconds; while the remainder is positive the car is
marked ServingPenalty, and on the tick the remainder reaches zero or below
the penalty is removed and the car returns to Racing. -/
theorem penaltyTick_decay (dt : ℚ) (p : CarPenalty) (st : CarStatus) :
    (p.remainingPenalty - truncToward0 (dt * 1000) ≤ 0 →
      penaltyTick dt (some p) st = (none, CarStatus.racing)) ∧
    (0 < p.remainingPenalty - truncToward0 (dt * 1000) →
      penaltyTick dt (some p) st =
        (some { p with remainingPenalty :=
            p.remainingPenalty - truncToward0 (dt * 1000) },
         CarStatus.servingPenalty)) ∧
    penaltyTick dt none st = (none, st) := by
  refine ⟨?_, ?_, rfl⟩
  · intro h
    unfold penaltyTick
    dsimp only
    rw [if_pos h]
  · intro h
    unfold penaltyTick
    dsimp only
    rw [if_neg (by omega)]

/-- C8 counterexample: at dt = 1/600 s a penalty of 100 ms decays to
99 ms, i.e. the decrement is the truncated 1 ms, not the dt×1000 = 5/3 ms
the claim states. -/
theorem penalty_decrement_truncates :
    (penaltyTick (1/600) (some ⟨"A", "corner cut", 100⟩) CarStatus.racing).1 =
      some ⟨"A", "corner cut", 99⟩ ∧
    ((99 : ℚ) ≠ (100 : ℚ) - (1/600) * 1000) := by
  constructor
  · have htr : truncToward0 ((1/600 : ℚ) * 1000) = 1 := by
      unfold truncToward0
      rw [if_pos (by norm_num)]
      rw [Int.floor_eq_iff] <;> norm_num
    unfold penaltyTick
    dsimp only
    rw [htr]
    norm_num
  · norm_num


theorem lessPos_false_iff (x y : CarPos) :
    lessPos x y = false ↔ (x.lap < y.lap ∨ (x.lap = y.lap ∧ x.progress ≤ y.progress)) := by
  unfold lessPos
  by_cases h : x.lap ≠ y.lap
  · rw [if_pos h]
    simp only [decide_eq_false_iff_not, gt_iff_lt, not_lt]
    constructor
    · intro hle
      left
      omega
    · rintro (hlt | ⟨heq, _⟩)
      · omega
      · exact absurd heq h
  · rw [if_neg h]
    push_neg at h
    simp only [decide_eq_false_iff_not, gt_iff_lt, not_lt]
    constructor
    · intro hle
      right
      exact ⟨h, hle⟩
    · rintro (hlt | ⟨heq, hle⟩)
      · omega
      · exact hle

theorem sortCarsRel_total : ∀ a b : CarPos,
    (lessPos b a = false) ∨ (lessPos a b = false) := by
  intro a b
  rw [lessPos_false_iff, lessPos_false_iff]
  rcases lt_trichotomy a.lap b.lap with h | h | h
  · right
    left
    omega
  · rcases le_total b.progress a.progress with hp | hp
    · left
      right
      exact ⟨h.symm, hp⟩
    · right
      right
      exact ⟨h, hp⟩
  · left
    left
    omega

theorem sortCarsRel_trans : ∀ a b c : CarPos,
    lessPos b a = false → lessPos c b = false → lessPos c a = false := by
  intro a b c hab hbc
  rw [lessPos_false_iff] at hab hbc ⊢
  rcases hab with h1 | ⟨h1, h1p⟩ <;> rcases hbc with h2 | ⟨h2, h2p⟩
  · left
    omega
  · left
    omega
  · left
    omega
  · right
    exact ⟨by omega, le_trans h2p h1p⟩

/-- C6: the leaderboard sort returns a permutation of the cars ordered by
lap count descending then progress descending with no further tie-break,
and on laps [2,2,1] with progress [0.5,0.9,0.99] it returns the
(2,0.9), (2,0.5), (1,0.99) order the claim describes. -/
theorem leaderboard_ordering :
    (∀ l : List CarPos,
      List.Perm (sortCars l) l ∧
      List.Pairwise
        (fun a b => a.lap > b.lap ∨ (a.lap = b.lap ∧ a.progress ≥ b.progress))
        (sortCars l)) ∧
    sortCars [⟨"A", 2, 1/2⟩, ⟨"B", 2, 9/10⟩, ⟨"C", 1, 99/100⟩] =
      [⟨"B", 2, 9/10⟩, ⟨"A", 2, 1/2⟩, ⟨"C", 1, 99/100⟩] := by
  constructor
  · intro l
    constructor
    · exact List.perm_insertionSort _ l
    · have hs : List.Sorted (fun a b => lessPos b a = false) (sortCars l) := by
        haveI : IsTotal CarPos (fun a b => lessPos b a = false) := ⟨sortCarsRel_total⟩
        haveI : IsTrans CarPos (fun a b => lessPos b a = false) :=
          ⟨fun a b c => sortCarsRel_trans a b c⟩
        exact List.sorted_insertionSort _ l
      refine hs.imp ?_
      intro a b hab
      rcases (lessPos_false_iff b a).mp hab with h | ⟨h, hp⟩
      · left
        omega
      · right
        exact ⟨h.symm, hp⟩
  · norm_num [sortCars, List.insertionSort, List.orderedInsert, lessPos,
      decide_eq_false_iff_not, decide_eq_true_eq]


theorem intervalsToLeader_length (leader : CarPos) :
    ∀ (i : ℕ) (l : List CarPos), (intervalsToLeader leader i l).length = l.length := by
  intro i l
  induction l generalizing i with
  | nil => rfl
  | cons p rest ih =>
      simp only [intervalsToLeader, List.length_cons, ih]

theorem intervalsForPosition_length :
    ∀ (l : List CarPos) (i : ℕ) (prev : Option CarPos),
      (intervalsForPosition i prev l).length = l.length := by
  intro l
  induction l with
  | nil => intro i prev; rfl
  | cons p rest ih =>
      intro i prev
      simp only [intervalsForPosition, List.length_cons, ih]

theorem intervalsToLeader_getD_interval (leader : CarPos) :
    ∀ (l : List CarPos) (i j : ℕ), j < l.length →
      ((intervalsToLeader leader i l).getD j default).interval =
        ((leader.lap - (l.getD j default).lap : ℤ) : ℚ) +
          (leader.progress - (l.getD j default).progress) := by
  intro l
  induction l with
  | nil =>
      intro i j h
      simp at h
  | cons p rest ih =>
      intro i j h
      cases j with
      | zero => simp [intervalsToLeader]
      | succ j =>
          simp only [intervalsToLeader, List.getD_cons_succ]
          exact ih (i + 1) j (by simpa using h)

theorem intervalsForPosition_getD_zero_interval :
    ∀ (l : List CarPos) (i : ℕ) (prev : Option CarPos), 0 < l.length →
      ((intervalsForPosition i prev l).getD 0 default).interval =
        (match prev with
          | none => (0 : ℚ)
          | some q => ((q.lap - (l.getD 0 default).lap : ℤ) : ℚ) +
              (q.progress - (l.getD 0 default).progress)) := by
  intro l i prev h
  cases l with
  | nil => simp at h
  | cons p rest =>
      cases prev with
      | none => simp [intervalsForPosition]
      | some q => simp [intervalsForPosition]

theorem intervalsForPosition_getD_succ_interval :
    ∀ (l : List CarPos) (i : ℕ) (prev : Option CarPos) (j : ℕ), j + 1 < l.length →
      ((intervalsForPosition i prev l).getD (j + 1) default).interval =
        (((l.getD j default).lap - (l.getD (j + 1) default).lap : ℤ) : ℚ) +
          ((l.getD j default).progress - (l.getD (j + 1) default).progress) := by
  intro l
  induction l with
  | nil =>
      intro i prev j h
      simp at h
  | cons p rest ih =>
      intro i prev j h
      cases j with
      | zero =>
          simp only [intervalsForPosition, List.getD_cons_succ, List.getD_cons_zero]
          have hr : 0 < rest.length := by simpa using h
          rw [intervalsForPosition_getD_zero_interval rest (i + 1) (some p) hr]
      | succ j =>
          simp only [intervalsForPosition, List.getD_cons_succ]
          exact ih (i + 1) (some p) j (by simpa using h)

/-- C7: in the sorted leaderboard every interval-to-leader equals
(leaderLap − carLap) + (leaderProgress − carProgress), every
interval-to-car-ahead applies the same formula to the preceding sorted
entry, and both intervals of the leading entry are exactly 0. -/
theorem interval_metric (l : List CarPos) :
    ((calculateIntervals l).1.length = (sortCars l).length ∧
     (calculateIntervals l).2.length = (sortCars l).length) ∧
    (∀ j : ℕ, j < (sortCars l).length →
      ((calculateIntervals l).1.getD j default).interval =
        ((((sortCars l).getD 0 default).lap - ((sortCars l).getD j default).lap : ℤ) : ℚ) +
          (((sortCars l).getD 0 default).progress - ((sortCars l).getD j default).progress)) ∧
    (0 < (sortCars l).length →
      ((calculateIntervals l).1.getD 0 default).interval = 0 ∧
      ((calculateIntervals l).2.getD 0 default).interval = 0) ∧
    (∀ j : ℕ, j + 1 < (sortCars l).length →
      ((calculateIntervals l).2.getD (j + 1) default).interval =
        ((((sortCars l).getD j default).lap - ((sortCars l).getD (j + 1) default).lap : ℤ) : ℚ) +
          (((sortCars l).getD j default).progress -
            ((sortCars l).getD (j + 1) default).progress)) := by
  unfold calculateIntervals
  cases hs : sortCars l with
  | nil =>
      refine ⟨⟨rfl, rfl⟩, ?_, ?_, ?_⟩
      · intro j h
        simp at h
      · intro h
        simp at h
      · intro j h
        simp at h
  | cons leader rest =>
      refine ⟨⟨?_, ?_⟩, ?_, ?_, ?_⟩
      · simp [intervalsToLeader_length]
      · simp [intervalsForPosition_length]
      · intro j h
        have := intervalsToLeader_getD_interval leader (leader :: rest) 0 j h
        simpa using this
      · intro h
        constructor
        · have := intervalsToLeader_getD_interval leader (leader :: rest) 0 0 (by simp)
          simp only [List.getD_cons_zero] at this
          rw [this]
          push_cast
          ring
        · have := intervalsForPosition_getD_zero_interval (leader :: rest) 0 none (by simp)
          simpa using this
      · intro j h
        have := intervalsForPosition_getD_succ_interval (leader :: rest) 0 none j h
        simpa using this


theorem scanClosest_fst_le (pos : Point3D) :
    ∀ (pairs : List (Point3D × Point3D)) (i : ℕ) (acc : ℚ × ℕ),
      (scanClosest pos pairs i acc).1 ≤ acc.1 ∧
      ∀ p ∈ pairs, (scanClosest pos pairs i acc).1 ≤ centerDist2 pos p.1 p.2 := by
  intro pairs
  induction pairs with
  | nil =>
      intro i acc
      exact ⟨le_refl _, by simp⟩
  | cons p rest ih =>
      intro i acc
      by_cases hd : centerDist2 pos p.1 p.2 < acc.1
      · have hstep : scanClosest pos (p :: rest) i acc =
            scanClosest pos rest (i + 1) (centerDist2 pos p.1 p.2, i) := by
          simp only [scanClosest]
          rw [if_pos hd]
        obtain ⟨h1, h2⟩ := ih (i + 1) (centerDist2 pos p.1 p.2, i)
        rw [hstep]
        refine ⟨le_trans h1 (le_of_lt hd), ?_⟩
        intro q hq
        rcases List.mem_cons.mp hq with rfl | hq
        · exact h1
        · exact h2 q hq
      · have hstep : scanClosest pos (p :: rest) i acc =
            scanClosest pos rest (i + 1) acc := by
          simp only [scanClosest]
          rw [if_neg hd]
        obtain ⟨h1, h2⟩ := ih (i + 1) acc
        rw [hstep]
        refine ⟨h1, ?_⟩
        intro q hq
        rcases List.mem_cons.mp hq with rfl | hq
        · exact le_trans h1 (le_of_not_lt hd)
        · exact h2 q hq

theorem scanClosest_result (pos : Point3D) :
    ∀ (pairs : List (Point3D × Point3D)) (i : ℕ) (acc : ℚ × ℕ),
      scanClosest pos pairs i acc = acc ∨
      ∃ j, j < pairs.length ∧
        scanClosest pos pairs i acc =
          (centerDist2 pos (pairs.getD j default).1 (pairs.getD j default).2, i + j) := by
  intro pairs
  induction pairs with
  | nil =>
      intro i acc
      left
      rfl
  | cons p rest ih =>
      intro i acc
      by_cases hd : centerDist2 pos p.1 p.2 < acc.1
      · have hstep : scanClosest pos (p :: rest) i acc =
            scanClosest pos rest (i + 1) (centerDist2 pos p.1 p.2, i) := by
          simp only [scanClosest]
          rw [if_pos hd]
        rcases ih (i + 1) (centerDist2 pos p.1 p.2, i) with h | ⟨j, hj, hEq⟩
        · right
          refine ⟨0, by simp, ?_⟩
          rw [hstep, h]
          simp
        · right
          refine ⟨j + 1, by simpa using hj, ?_⟩
          rw [hstep, hEq]
          simp only [List.getD_cons_succ]
          congr 1
          omega
      · have hstep : scanClosest pos (p :: rest) i acc =
            scanClosest pos rest (i + 1) acc := by
          simp only [scanClosest]
          rw [if_neg hd]
        rcases ih (i + 1) acc with h | ⟨j, hj, hEq⟩
        · left
          rw [hstep, h]
        · right
          refine ⟨j + 1, by simpa using hj, ?_⟩
          rw [hstep, hEq]
          simp only [List.getD_cons_succ]
          congr 1
          omega

/-- C9 (amended): for equal-length nonempty boundaries the returned
progress always lies in [0,1), and whenever some centerline point is
closer than the MaxFloat32 sentinel the result is closestIndex/pointCount
for an index of minimal squared distance. -/
theorem calculateTrackProgress_nearest (track : TrackInfo) (pos : Point3D)
    (hlen : track.rightBoundary.length = track.leftBoundary.length)
    (hne : track.leftBoundary ≠ []) :
    (0 ≤ calculateTrackProgress track pos ∧ calculateTrackProgress track pos < 1) ∧
    ((∃ jw, jw < (trackPairs track).length ∧
        centerDist2 pos ((trackPairs track).getD jw default).1
          ((trackPairs track).getD jw default).2 < maxFloat32) →
      ∃ i, i < track.leftBoundary.length ∧
        calculateTrackProgress track pos =
          (i : ℚ) / (track.leftBoundary.length : ℚ) ∧
        ∀ j, j < (trackPairs track).length →
          centerDist2 pos ((trackPairs track).getD i default).1
              ((trackPairs track).getD i default).2 ≤
            centerDist2 pos ((trackPairs track).getD j default).1
              ((trackPairs track).getD j default).2) := by
  have hplen : (trackPairs track).length = track.leftBoundary.length := by
    unfold trackPairs
    rw [List.length_zip, hlen, min_self]
  have hn : 0 < track.leftBoundary.length := List.length_pos.mpr hne
  have hnq : (0:ℚ) < (track.leftBoundary.length : ℚ) := by exact_mod_cast hn
  have hprog : calculateTrackProgress track pos =
      ((scanClosest pos (trackPairs track) 0 (maxFloat32, 0)).2 : ℚ) /
        (track.leftBoundary.length : ℚ) := rfl
  constructor
  · rcases scanClosest_result pos (trackPairs track) 0 (maxFloat32, 0) with h | ⟨j, hj, hEq⟩
    · rw [hprog, h]
      norm_num
    · rw [hprog, hEq]
      constructor
      · positivity
      · rw [div_lt_one hnq]
        have : j < track.leftBoundary.length := hplen ▸ hj
        simp only [Nat.zero_add]
        exact_mod_cast this
  · rintro ⟨jw, hjw, hdw⟩
    rcases scanClosest_result pos (trackPairs track) 0 (maxFloat32, 0) with h | ⟨j, hj, hEq⟩
    · exfalso
      have hmem : (trackPairs track).getD jw default ∈ trackPairs track := by
        rw [List.getD_eq_getElem _ _ hjw]
        exact List.getElem_mem _
      have hle := (scanClosest_fst_le pos (trackPairs track) 0 (maxFloat32, 0)).2 _ hmem
      rw [h] at hle
      exact absurd (lt_of_le_of_lt hle hdw) (lt_irrefl _)
    · refine ⟨j, hplen ▸ hj, ?_, ?_⟩
      · rw [hprog, hEq]
        simp
      · intro j2 hj2
        have hmem : (trackPairs track).getD j2 default ∈ trackPairs track := by
          rw [List.getD_eq_getElem _ _ hj2]
          exact List.getElem_mem _
        have hle := (scanClosest_fst_le pos (trackPairs track) 0 (maxFloat32, 0)).2 _ hmem
        have hfst : (scanClosest pos (trackPairs track) 0 (maxFloat32, 0)).1 =
            centerDist2 pos ((trackPairs track).getD j default).1
              ((trackPairs track).getD j default).2 := by
          rw [hEq]
        rw [hfst] at hle
        exact hle


/-- C9 counterexample: with every squared distance at or above the
MaxFloat32 sentinel the scan never updates, so index 0 is returned even
though index 1 is strictly closer; the value 1/2 the claim predicts
differs from the actual 0. -/
theorem trackProgress_sentinel_cex :
    calculateTrackProgress cexTrack cexPos = 0 ∧
    centerDist2 cexPos ((trackPairs cexTrack).getD 1 default).1
        ((trackPairs cexTrack).getD 1 default).2 <
      centerDist2 cexPos ((trackPairs cexTrack).getD 0 default).1
        ((trackPairs cexTrack).getD 0 default).2 ∧
    ((0 : ℚ) ≠ 1 / 2) := by
  refine ⟨?_, ?_, by norm_num⟩
  · norm_num [calculateTrackProgress, trackPairs, cexTrack, cexPos, List.zip,
      List.zipWith, scanClosest, centerDist2, maxFloat32]
  · norm_num [trackPairs, cexTrack, cexPos, List.zip, List.zipWith, centerDist2]


theorem sendPlayerInput_token_gate_witness :
    (SendPlayerInput demoServer
        ⟨"A", "wrong-token", 1, 1, 0, 5⟩).1.accepted = false ∧
    (SendPlayerInput demoServer
        ⟨"A", "wrong-token", 1, 1, 0, 5⟩).1.reason = "invalid token" ∧
    (SendPlayerInput demoServer
        ⟨"A", "wrong-token", 1, 1, 0, 5⟩).1.gameLoop = demoServer.gameTick ∧
    (SendPlayerInput demoServer ⟨"A", "wrong-token", 1, 1, 0, 5⟩).2 = demoServer :=
  (sendPlayerInput_token_gate demoServer ⟨"A", "wrong-token", 1, 1, 0, 5⟩
    "demo-token-A" rfl).1 (by decide)

theorem sendPlayerInput_unknown_car_witness :
    (SendPlayerInput demoServer ⟨"Z", "demo-token-Z", 1, 1, 0, 5⟩).1 =
      { accepted := false, reason := "invalid token", gameLoop := demoServer.gameTick } ∧
    (SendPlayerInput demoServer ⟨"Z", "demo-token-Z", 1, 1, 0, 5⟩).2 = demoServer ∧
    (SendPlayerInput demoServer ⟨"Z", "demo-token-Z", 1, 1, 0, 5⟩).2.playerInput.lookup "Z" =
      demoServer.playerInput.lookup "Z" :=
  sendPlayerInput_unknown_car demoServer ⟨"Z", "demo-token-Z", 1, 1, 0, 5⟩ rfl

theorem lap_increment_rule_witness :
    lapsGainedFrom 5 0 ([1/2, 99/100] ++ [1/20]) = 1 :=
  (lap_increment_rule demoTrig demoTrack demoState demoInput 1 0).2.2.2.1
    [1/2, 99/100] 5 (by norm_num)
    (by
      simp only [List.chain'_cons, List.chain'_singleton, and_true]
      norm_num)
    (by norm_num)

theorem speed_clamped_per_tick_witness :
    0 ≤ (updateCarPhysics demoTrig demoTrack demoState demoInput 1 0).speed ∧
    (updateCarPhysics demoTrig demoTrack demoState demoInput 1 0).speed ≤ maxSpeed :=
  (speed_clamped_per_tick demoTrig demoTrack demoState demoInput 1 0 (by norm_num)).1

theorem friction_decay_to_zero_witness :
    ((fun s => updateCarPhysics demoTrig demoTrack s demoInput 1 0)^[2] demoFast).speed = 0 :=
  (friction_decay_to_zero demoTrig demoTrack demoInput 1 0 rfl rfl
    (by norm_num)).2.2.2 demoFast (by norm_num [demoFast, demoState]) 2
    (by norm_num [demoFast, demoState, friction])

theorem heading_normalized_witness :
    0 ≤ (updateCarPhysics demoTrig demoTrack demoState demoInput 1 0).heading ∧
    (updateCarPhysics demoTrig demoTrack demoState demoInput 1 0).heading < 360 :=
  (heading_normalized demoTrig demoTrack demoState demoInput 1 0).1
    (by norm_num [demoState]) (by norm_num [demoState])

theorem interval_metric_witness :
    ((calculateIntervals demoGrid).1.getD 0 default).interval = 0 ∧
    ((calculateIntervals demoGrid).2.getD 0 default).interval = 0 :=
  (interval_metric demoGrid).2.2.1
    (by
      unfold sortCars
      rw [(List.perm_insertionSort _ demoGrid).length_eq]
      norm_num [demoGrid])

theorem penaltyTick_decay_witness :
    penaltyTick (1/60) (some ⟨"A", "track limits", 10⟩) CarStatus.racing =
      (none, CarStatus.racing) ∧
    penaltyTick (1/60) (some ⟨"A", "track limits", 100⟩) CarStatus.racing =
      (some ⟨"A", "track limits", 84⟩, CarStatus.servingPenalty) := by
  have h16 : truncToward0 ((1/60 : ℚ) * 1000) = 16 := by
    unfold truncToward0
    rw [if_pos (by norm_num)]
    rw [Int.floor_eq_iff] <;> norm_num
  constructor
  · exact (penaltyTick_decay (1/60) ⟨"A", "track limits", 10⟩ CarStatus.racing).1
      (by rw [h16]; norm_num)
  · have h := (penaltyTick_decay (1/60) ⟨"A", "track limits", 100⟩ CarStatus.racing).2.1
      (by rw [h16]; norm_num)
    rw [h16] at h
    norm_num at h
    exact h

theorem calculateTrackProgress_nearest_witness :
    0 ≤ calculateTrackProgress demoTrack ⟨1, 0, 0⟩ ∧
    calculateTrackProgress demoTrack ⟨1, 0, 0⟩ < 1 :=
  (calculateTrackProgress_nearest demoTrack ⟨1, 0, 0⟩ rfl
    (by simp [demoTrack])).1

end Airaces